import Mathlib

/-!
Verification of the match-and-highlight core of the regex learning tool
(src/regex/regex_learning_tool-GUI.py).

Two components are embedded:

* the inline markup renderer `RichTextRE.populate_re` together with the
  combined pattern `all_patterns` it scans with (the pattern is part of the
  repository's source, so its matching semantics for this specific regex
  are embedded directly: alternation tried left to right at each position,
  leftmost match wins, MULTILINE anchors, greedy `.+`, lazy character
  classes);

* the match highlighter `payload_action` / `begin_payload`.  The actual
  regular-expression matching there is delegated by the source to the
  external `re` library (`re.finditer(pattern, content, flags)`), so the
  engine's output is modelled as an explicit parameter: a list of spans
  (or an error) standing for what `re.finditer` yields for the given
  pattern, flags and content.
-/

namespace RegexTool

/-! ### Inline markup renderer (RichTextRE.populate_re) -/

/-- Presentation styles of the four tags configured by `RichTextRE`,
plus `plain` for untagged inserts. -/
inductive Style
  | plain
  | bullet
  | h1
  | bold
  | italic
  deriving DecidableEq, Repr

/-- One insertion into the Text widget: a run of characters with one style. -/
structure Seg where
  text : List Char
  style : Style
  deriving DecidableEq, Repr

/-- Which alternative of `all_patterns` matched. -/
inductive MKind
  | list
  | heading
  | bold
  | italic
  deriving DecidableEq, Repr

/-- One match of the combined pattern: its span `[startPos, endPos)` in the
content and the inner capture group (the displayed text). -/
structure MRes where
  startPos : Nat
  endPos : Nat
  kind : MKind
  inner : List Char
  deriving DecidableEq, Repr

/-- Python's `\s` character class (ASCII portion, which is what the help text
uses): space, tab, newline, carriage return, vertical tab, form feed. -/
def isPySpace (c : Char) : Bool :=
  c == ' ' || c == '\t' || c == '\n' || c == '\r' || c == '\x0b' || c == '\x0c'

/-- `re.MULTILINE` semantics of `^`: position 0 or just after a newline. -/
def atLineStart (c : List Char) (p : Nat) : Bool :=
  p == 0 || c.get? (p - 1) == some '\n'

/-- Matching of one line alternative `^<marker>\s(.+)$` (MULTILINE) at
position `p`: marker character, one `\s` character, then a greedy non-empty
run of non-newline characters; `$` is zero-width, so the match ends at the
end of that run.  Returns the match end and the inner capture. -/
def lineMatchAt (marker : Char) (c : List Char) (p : Nat) : Option (Nat × List Char) :=
  if atLineStart c p then
    match c.get? p, c.get? (p + 1) with
    | some m0, some s0 =>
      if m0 == marker && isPySpace s0 then
        if ((c.drop (p + 2)).takeWhile (fun x => x != '\n')).length = 0 then none
        else some (p + 2 + ((c.drop (p + 2)).takeWhile (fun x => x != '\n')).length,
                   (c.drop (p + 2)).takeWhile (fun x => x != '\n'))
      else none
    | _, _ => none
  else none

/-- Matching of the bold alternative `\*\*([^*]+?)\*\*` at position `p`:
two stars, a lazy non-empty run of non-star characters (which therefore
extends exactly to the next star), then two stars. -/
def boldMatchAt (c : List Char) (p : Nat) : Option (Nat × List Char) :=
  match c.get? p, c.get? (p + 1) with
  | some a, some b =>
    if a == '*' && b == '*' then
      if ((c.drop (p + 2)).takeWhile (fun x => x != '*')).length = 0 then none
      else if c.get? (p + 2 + ((c.drop (p + 2)).takeWhile (fun x => x != '*')).length) == some '*'
              && c.get? (p + 3 + ((c.drop (p + 2)).takeWhile (fun x => x != '*')).length) == some '*' then
        some (p + 4 + ((c.drop (p + 2)).takeWhile (fun x => x != '*')).length,
              (c.drop (p + 2)).takeWhile (fun x => x != '*'))
      else none
    else none
  | _, _ => none

/-- Matching of the italic alternative `(_([^_]+?)_)` at position `p`:
underscore, lazy non-empty run of non-underscore characters, underscore. -/
def italicMatchAt (c : List Char) (p : Nat) : Option (Nat × List Char) :=
  if c.get? p == some '_' then
    if ((c.drop (p + 1)).takeWhile (fun x => x != '_')).length = 0 then none
    else if c.get? (p + 1 + ((c.drop (p + 1)).takeWhile (fun x => x != '_')).length) == some '_' then
      some (p + 2 + ((c.drop (p + 1)).takeWhile (fun x => x != '_')).length,
            (c.drop (p + 1)).takeWhile (fun x => x != '_'))
    else none
  else none

/-- One alternative of `all_patterns`, tried at position `p`. -/
def altMatchAt (k : MKind) (c : List Char) (p : Nat) : Option MRes :=
  match k with
  | MKind.list => (lineMatchAt '-' c p).map (fun r => ⟨p, r.1, MKind.list, r.2⟩)
  | MKind.heading => (lineMatchAt '#' c p).map (fun r => ⟨p, r.1, MKind.heading, r.2⟩)
  | MKind.bold => (boldMatchAt c p).map (fun r => ⟨p, r.1, MKind.bold, r.2⟩)
  | MKind.italic => (italicMatchAt c p).map (fun r => ⟨p, r.1, MKind.italic, r.2⟩)

/-- Textual priority of the alternatives inside `all_patterns`:
List item, Heading, Bold, Italic. -/
def rank : MKind → Nat
  | MKind.list => 0
  | MKind.heading => 1
  | MKind.bold => 2
  | MKind.italic => 3

/-- The combined pattern tried at one position: the four alternatives in
their textual order, the first that matches wins. -/
def matchAt (c : List Char) (p : Nat) : Option MRes :=
  match altMatchAt MKind.list c p with
  | some m => some m
  | none =>
    match altMatchAt MKind.heading c p with
    | some m => some m
    | none =>
      match altMatchAt MKind.bold c p with
      | some m => some m
      | none => altMatchAt MKind.italic c p

/-- Scan of `re.finditer(reo_all, content)`: positions are tried left to
right; after a match the scan resumes at the match end (every alternative
consumes at least three characters, so matches never overlap and the
position strictly increases).  `fuel` bounds the recursion; `finditer`
supplies enough fuel for the whole content. -/
def scanFrom (c : List Char) : Nat → Nat → List MRes
  | 0, _ => []
  | fuel + 1, p =>
    match matchAt c p with
    | some m => m :: scanFrom c fuel m.endPos
    | none => if p < c.length then scanFrom c fuel (p + 1) else []

/-- All matches of the combined pattern over the content, in order. -/
def finditer (c : List Char) : List MRes :=
  scanFrom c (c.length + 1) 0

/-- The glyph prefix `insert_bullet` places before a bullet's text. -/
def bulletGlyph : List Char := ['•', ' ']

/-- The single styled insertion performed for one match, following the
group dispatch in `populate_re`: list items go through `insert_bullet`
(glyph plus trailing newline), headings get a trailing newline and the
`h1` tag, bold and italic insert the inner capture verbatim. -/
def styledSeg (m : MRes) : Seg :=
  match m.kind with
  | MKind.list => ⟨bulletGlyph ++ m.inner ++ ['\n'], Style.bullet⟩
  | MKind.heading => ⟨m.inner ++ ['\n'], Style.h1⟩
  | MKind.bold => ⟨m.inner, Style.bold⟩
  | MKind.italic => ⟨m.inner, Style.italic⟩

/-- Python slice `content[a:b]`. -/
def slice (c : List Char) (a b : Nat) : List Char :=
  (c.take b).drop a

/-- Inserting a run of characters with no tag; inserting the empty string
is a no-op on the widget, so it produces no segment. -/
def emitPlain (xs : List Char) : List Seg :=
  if xs.isEmpty then [] else [⟨xs, Style.plain⟩]

/-- The loop body of `populate_re`: for each match, the unformatted gap
`content[lastpos:start]` is inserted only when `lastpos + 1 != start`
(this is the guard written in the source), then the styled insertion for
the match is made and `lastpos` advances to the match end; after the loop
the trailing `content[lastpos:]` is inserted. -/
def renderLoop (c : List Char) : Nat → List MRes → List Seg
  | lastpos, [] => emitPlain (c.drop lastpos)
  | lastpos, m :: ms =>
    (if lastpos + 1 ≠ m.startPos then emitPlain (slice c lastpos m.startPos) else [])
      ++ (styledSeg m :: renderLoop c m.endPos ms)

/-- `RichTextRE.populate_re`: scan the content with the combined pattern
and emit the resulting sequence of styled insertions. -/
def populate_re (c : List Char) : List Seg :=
  renderLoop c 0 (finditer c)

/-! ### Match highlighter (payload_action / begin_payload) -/

/-- One span reported by the external engine's `finditer`:
`match.start()` and `match.end()`. -/
structure Span where
  startAt : Nat
  endAt : Nat
  deriving DecidableEq, Repr

/-- One highlight tag created by `payload_action`: its name
(`'match' + str(i)`), the character range it covers, and the background
colour it is configured with. -/
structure Tag where
  name : String
  startAt : Nat
  endAt : Nat
  colour : String
  deriving DecidableEq, Repr

/-- The module-level `highlight_colours` list; the comment in the source
notes that the second value will show first. -/
def highlight_colours : List String := ["cyan", "yellow"]

/-- The four flag checkboxes: g (find all), i (IGNORECASE), m (MULTILINE),
s (DOTALL).  Only `g` changes the behaviour of `payload_action` itself;
the other three are forwarded to the external engine. -/
structure Flags where
  g : Bool
  icase : Bool
  multi : Bool
  dotAll : Bool
  deriving DecidableEq, Repr

/-- The match loop of `payload_action`: `i` is the running 1-based count,
each engine match becomes one tag `'match' + str(i)` over the match's span
with background `highlight_colours[i % 2]`, and when `just1` is set the
function returns right after the first tag with count 1.  Returns the
created tags and the final value of `i`. -/
def payloadRun (just1 : Bool) : Nat → List Span → List Tag × Nat
  | i, [] => ([], i)
  | i, mt :: rest =>
    if just1 then
      ([⟨"match" ++ toString (i + 1), mt.startAt, mt.endAt,
         highlight_colours.getD ((i + 1) % 2) ""⟩], 1)
    else
      ((⟨"match" ++ toString (i + 1), mt.startAt, mt.endAt,
         highlight_colours.getD ((i + 1) % 2) ""⟩)
        :: (payloadRun just1 (i + 1) rest).1,
       (payloadRun just1 (i + 1) rest).2)

/-- `payload_action`: it first deletes every existing tag of the Text
widget (so the resulting tag state never depends on `prev`), then iterates
over the engine's matches.  The external `re.finditer` call is modelled by
the `eng` parameter: the list of spans it yields for the given pattern,
flags and content, or the error it raises (pattern compilation happens
inside that call, after the tags were already cleared).  The result is the
new tag state of the widget and the function's return value `(True, i)`,
or the propagated error. -/
def payload_action (prev : List Tag) (fl : Flags) (eng : Except String (List Span)) :
    List Tag × Except String (Bool × Nat) :=
  match prev, eng with
  | _, Except.error e => ([], Except.error e)
  | _, Except.ok ms =>
    ((payloadRun (fl.g == false) 0 ms).1,
     Except.ok (true, (payloadRun (fl.g == false) 0 ms).2))

/-- A status report: the message shown in the status label and whether it
was shown with the red error formatting. -/
structure Status where
  message : String
  isError : Bool
  deriving DecidableEq, Repr

/-- The observable outcome of `begin_payload`: the status report, the
value returned to Tk (`True`, `False`, or `None` from the except branch),
whether `payload_action` was invoked at all, and the resulting tag state
of the Text widget. -/
structure BeginResult where
  status : Status
  retval : Option Bool
  payloadRan : Bool
  tags : List Tag
  deriving DecidableEq, Repr

/-- `begin_payload`: reject an empty pattern, then empty content, with an
error status and return value `False`, before `payload_action` (and hence
the engine) is ever invoked; otherwise run `payload_action` inside the
try block — on `(True, n)` report `'{n} matches'`, on a dead `(False, _)`
branch report the count as an error, and on an exception report
`'Error occurred: {e}'` with error formatting and fall through (`None`). -/
def begin_payload (prev : List Tag) (pattern content : String) (fl : Flags)
    (eng : Except String (List Span)) : BeginResult :=
  if pattern.length = 0 then
    ⟨⟨"No pattern provided", true⟩, some false, false, prev⟩
  else if content.length = 0 then
    ⟨⟨"No text provided", true⟩, some false, false, prev⟩
  else
    match payload_action prev fl eng with
    | (tags, Except.ok (b, n)) =>
      if b then ⟨⟨toString n ++ " matches", false⟩, some true, true, tags⟩
      else ⟨⟨toString n, true⟩, some false, true, tags⟩
    | (tags, Except.error e) =>
      ⟨⟨"Error occurred: " ++ e, true⟩, none, true, tags⟩

/-! ### Helper lemmas about the highlighter loop -/

/-- With the global flag set, the final running count is the initial count
plus the number of engine matches. -/
theorem payloadRun_count (ms : List Span) : ∀ i : Nat, (payloadRun false i ms).2 = i + ms.length := by
  induction ms with
  | nil => intro i; simp [payloadRun]
  | cons mt rest ih => intro i; simp [payloadRun, ih]; omega

/-- With the global flag set, the created tags cover exactly the engine's
spans, in order. -/
theorem payloadRun_pairs (ms : List Span) :
    ∀ i : Nat,
      (payloadRun false i ms).1.map (fun t => (t.startAt, t.endAt))
        = ms.map (fun mt => (mt.startAt, mt.endAt)) := by
  induction ms with
  | nil => intro i; simp [payloadRun]
  | cons mt rest ih => intro i; simp [payloadRun, ih]

/-- Every created tag is configured with `highlight_colours[i % 2]` where
`i` is its 1-based position in the running count. -/
theorem payloadRun_colour (ms : List Span) :
    ∀ (just1 : Bool) (i j : Nat) (t : Tag),
      (payloadRun just1 i ms).1.get? j = some t →
      t.colour = highlight_colours.getD ((i + j + 1) % 2) "" := by
  induction ms with
  | nil => intro just1 i j t h; simp [payloadRun] at h
  | cons mt rest ih =>
    intro just1 i j t h
    cases just1 with
    | true =>
      simp [payloadRun] at h
      cases j with
      | zero =>
        simp only [List.getElem?_cons_zero, Option.some.injEq] at h
        rw [← h]
        simp
      | succ n =>
        simp only [List.getElem?_cons_succ] at h
        simp at h
    | false =>
      simp [payloadRun] at h
      cases j with
      | zero =>
        simp only [List.getElem?_cons_zero, Option.some.injEq] at h
        rw [← h]
        simp
      | succ n =>
        simp only [List.getElem?_cons_succ] at h
        have hrec := ih false (i + 1) n t (by simpa using h)
        rw [(by omega : i + (n + 1) + 1 = i + 1 + n + 1)]
        exact hrec

/-- Any relation that only looks at the `(start, end)` pair of a span
transfers from the engine's match list to the created tag list. -/
theorem payloadRun_pairwise (R : Nat × Nat → Nat × Nat → Prop) (ms : List Span)
    (h : List.Pairwise (fun a b : Span => R (a.startAt, a.endAt) (b.startAt, b.endAt)) ms) :
    List.Pairwise (fun t u : Tag => R (t.startAt, t.endAt) (u.startAt, u.endAt))
      (payloadRun false 0 ms).1 := by
  have h1 : List.Pairwise R ((payloadRun false 0 ms).1.map (fun t => (t.startAt, t.endAt))) := by
    rw [payloadRun_pairs ms 0]
    exact List.pairwise_map.mpr h
  exact List.pairwise_map.mp h1

/-- The `j`-th created tag covers exactly the `j`-th engine span. -/
theorem payloadRun_get (ms : List Span) (j : Nat) (mt : Span)
    (h : ms.get? j = some mt) :
    ∃ t : Tag, (payloadRun false 0 ms).1.get? j = some t ∧
      t.startAt = mt.startAt ∧ t.endAt = mt.endAt := by
  have h1 : ((payloadRun false 0 ms).1.map (fun t => (t.startAt, t.endAt))).get? j
      = some (mt.startAt, mt.endAt) := by
    rw [payloadRun_pairs ms 0, List.get?_map, h]; rfl
  rw [List.get?_map] at h1
  cases h2 : (payloadRun false 0 ms).1.get? j with
  | none => rw [h2] at h1; simp at h1
  | some t =>
    rw [h2] at h1
    simp only [Option.map_some', Option.some.injEq, Prod.mk.injEq] at h1
    exact ⟨t, rfl, h1.1, h1.2⟩

/-! ### Claims about the match highlighter -/

/-- C2: numbering the spans produced by the match loop 1-based in order of
discovery, span `i` is highlighted with `highlight_colours[i % 2]`:
the first span gets the second colour (index 1), the second span the first
colour (index 0), alternating in a two-colour cycle that starts from the
second colour.  (With 0-based position `j` in the tag list this is index
`(j + 1) % 2`.) -/
theorem C2_style_alternation (fl : Flags) (ms : List Span) (j : Nat) (t : Tag)
    (h : (payloadRun (fl.g == false) 0 ms).1.get? j = some t) :
    t.colour = highlight_colours.getD ((j + 1) % 2) "" := by
  have hc := payloadRun_colour ms (fl.g == false) 0 j t h
  rw [(by omega : j + 1 = 0 + j + 1)]
  exact hc

/-- Witness for C2 at a concrete three-span engine output: the third span
(1-based index 3) is highlighted with `highlight_colours[1]` = yellow. -/
theorem C2_style_alternation_witness :
    (payloadRun ((Flags.mk true false false false).g == false) 0
        [⟨0, 1⟩, ⟨2, 3⟩, ⟨5, 9⟩]).1.get? 2 = some ⟨"match3", 5, 9, "yellow"⟩ ∧
    (⟨"match3", 5, 9, "yellow"⟩ : Tag).colour = highlight_colours.getD ((2 + 1) % 2) "" :=
  ⟨by decide,
   C2_style_alternation ⟨true, false, false, false⟩ [⟨0, 1⟩, ⟨2, 3⟩, ⟨5, 9⟩] 2
     ⟨"match3", 5, 9, "yellow"⟩ (by decide)⟩

/-- C3: with the global flag off, `payload_action` returns after the first
engine match with count 1 and exactly one tag whose bounds are the first
match reported by the engine (the engine is invoked with the same flags);
with no engine match it returns count 0 and no tag. -/
theorem C3_global_false_first_only (prev : List Tag) (fl : Flags) (mt : Span)
    (rest : List Span) (hg : fl.g = false) :
    payload_action prev fl (Except.ok (mt :: rest))
      = ([⟨"match1", mt.startAt, mt.endAt, "yellow"⟩], Except.ok (true, 1)) ∧
    payload_action prev fl (Except.ok ([] : List Span)) = ([], Except.ok (true, 0)) := by
  obtain ⟨g, fi, fm, fs⟩ := fl
  cases hg
  exact ⟨rfl, rfl⟩

/-- Witness for C3 at a concrete engine output of two matches: only the
first produces a tag and the count is 1. -/
theorem C3_global_false_first_only_witness :
    (Flags.mk false true false false).g = false ∧
    payload_action [] ⟨false, true, false, false⟩ (Except.ok [⟨4, 7⟩, ⟨9, 12⟩])
      = ([⟨"match1", 4, 7, "yellow"⟩], Except.ok (true, 1)) :=
  ⟨rfl,
   (C3_global_false_first_only [] ⟨false, true, false, false⟩ ⟨4, 7⟩ [⟨9, 12⟩] rfl).1⟩

/-- C4: with the global flag on and an engine match list that is strictly
ascending in start and non-overlapping (which is what the engine's
non-overlapping left-to-right iteration reports), `payload_action` returns
the engine's match count, creates one tag per match, and the tags are
themselves strictly ascending in start and mutually non-overlapping. -/
theorem C4_global_true_sorted (prev : List Tag) (fl : Flags) (ms : List Span)
    (hg : fl.g = true)
    (h : List.Pairwise (fun a b : Span => a.startAt < b.startAt ∧ a.endAt ≤ b.startAt) ms) :
    (payload_action prev fl (Except.ok ms)).2 = Except.ok (true, ms.length) ∧
    (payload_action prev fl (Except.ok ms)).1.length = ms.length ∧
    List.Pairwise (fun t u : Tag => t.startAt < u.startAt ∧ t.endAt ≤ u.startAt)
      (payload_action prev fl (Except.ok ms)).1 := by
  obtain ⟨g, fi, fm, fs⟩ := fl
  cases hg
  refine ⟨?_, ?_, ?_⟩
  · show Except.ok (true, (payloadRun false 0 ms).2) = _
    rw [payloadRun_count ms 0, Nat.zero_add]
  · show (payloadRun false 0 ms).1.length = _
    have := congrArg List.length (payloadRun_pairs ms 0)
    simpa using this
  · exact payloadRun_pairwise (fun a b => a.1 < b.1 ∧ a.2 ≤ b.1) ms h

/-- Witness for C4 at a concrete sorted non-overlapping engine output. -/
theorem C4_global_true_sorted_witness :
    List.Pairwise (fun a b : Span => a.startAt < b.startAt ∧ a.endAt ≤ b.startAt)
      [⟨0, 2⟩, ⟨2, 3⟩, ⟨5, 9⟩] ∧
    (payload_action [] ⟨true, false, false, false⟩
        (Except.ok [⟨0, 2⟩, ⟨2, 3⟩, ⟨5, 9⟩])).2 = Except.ok (true, 3) ∧
    List.Pairwise (fun t u : Tag => t.startAt < u.startAt ∧ t.endAt ≤ u.startAt)
      (payload_action [] ⟨true, false, false, false⟩
        (Except.ok [⟨0, 2⟩, ⟨2, 3⟩, ⟨5, 9⟩])).1 := by
  have hmain := C4_global_true_sorted [] ⟨true, false, false, false⟩
    [⟨0, 2⟩, ⟨2, 3⟩, ⟨5, 9⟩] rfl (by decide)
  exact ⟨by decide, hmain.1, hmain.2.2⟩

/-- C5: when the external engine raises during compilation or matching,
`payload_action` propagates a structured error carrying the engine's
description (with the widget's tags already cleared), and `begin_payload`
catches it at the call boundary: the status label shows
`Error occurred: <description>` with the red error formatting, the handler
returns normally (`None`), and no exception escapes — the application
stays usable. -/
theorem C5_engine_error (prev : List Tag) (pattern content : String) (fl : Flags)
    (e : String) (hp : pattern.length ≠ 0) (hc : content.length ≠ 0) :
    payload_action prev fl (Except.error e) = ([], Except.error e) ∧
    begin_payload prev pattern content fl (Except.error e)
      = ⟨⟨"Error occurred: " ++ e, true⟩, none, true, []⟩ := by
  refine ⟨rfl, ?_⟩
  simp [begin_payload, hp, hc, payload_action]

/-- Witness for C5: a malformed-pattern error from the engine is surfaced
as a red status message and the previously applied tag is cleared. -/
theorem C5_engine_error_witness :
    ("[A-".length ≠ 0 ∧ "Nantucket".length ≠ 0) ∧
    begin_payload [⟨"match1", 0, 1, "yellow"⟩] "[A-" "Nantucket"
        ⟨true, false, false, false⟩
        (Except.error "unterminated character set at position 0")
      = ⟨⟨"Error occurred: unterminated character set at position 0", true⟩,
         none, true, []⟩ :=
  ⟨⟨by decide, by decide⟩,
   (C5_engine_error [⟨"match1", 0, 1, "yellow"⟩] "[A-" "Nantucket"
     ⟨true, false, false, false⟩ "unterminated character set at position 0"
     (by decide) (by decide)).2⟩

/-- C6: an empty pattern, and an empty content, are each rejected by
`begin_payload` before `payload_action` (and with it the matching engine)
is invoked: an error-formatted status message is reported, the handler
returns `False`, and the previous tag state is untouched — the failure is
non-fatal. -/
theorem C6_empty_inputs (prev : List Tag) (pattern content : String) (fl : Flags)
    (eng : Except String (List Span)) (h : pattern.length = 0 ∨ content.length = 0) :
    (begin_payload prev pattern content fl eng).payloadRan = false ∧
    (begin_payload prev pattern content fl eng).status.isError = true ∧
    ((begin_payload prev pattern content fl eng).status.message = "No pattern provided" ∨
      (begin_payload prev pattern content fl eng).status.message = "No text provided") ∧
    (begin_payload prev pattern content fl eng).retval = some false := by
  by_cases hp : pattern.length = 0
  · simp [begin_payload, hp]
  · have hc : content.length = 0 := h.resolve_left hp
    simp [begin_payload, hp, hc]

/-- Witness for C6: empty pattern with non-empty content is rejected
without running the payload. -/
theorem C6_empty_inputs_witness :
    ("".length = 0 ∨ "Nantucket".length = 0) ∧
    ((begin_payload [] "" "Nantucket" ⟨true, false, false, false⟩
        (Except.ok [⟨0, 1⟩])).payloadRan = false ∧
      (begin_payload [] "" "Nantucket" ⟨true, false, false, false⟩
        (Except.ok [⟨0, 1⟩])).status.isError = true ∧
      ((begin_payload [] "" "Nantucket" ⟨true, false, false, false⟩
          (Except.ok [⟨0, 1⟩])).status.message = "No pattern provided" ∨
        (begin_payload [] "" "Nantucket" ⟨true, false, false, false⟩
          (Except.ok [⟨0, 1⟩])).status.message = "No text provided") ∧
      (begin_payload [] "" "Nantucket" ⟨true, false, false, false⟩
        (Except.ok [⟨0, 1⟩])).retval = some false) :=
  ⟨Or.inl (by decide),
   C6_empty_inputs [] "" "Nantucket" ⟨true, false, false, false⟩
     (Except.ok [⟨0, 1⟩]) (Or.inl (by decide))⟩

/-- C9: `payload_action` deletes every existing highlight tag before
creating the new ones, so its visible effect is idempotent: the resulting
tag state never depends on the previous tag state, and running the whole
operation a second time on its own output (same pattern, flags, content,
hence the same engine output) leaves the exact same tag state and return
value — no duplicate styling accumulates.  Determinism (bit-identical span
lists for identical inputs) is immediate since it is a function of its
inputs. -/
theorem C9_idempotent_highlight (prev prev' : List Tag) (fl : Flags)
    (eng : Except String (List Span)) :
    payload_action (payload_action prev fl eng).1 fl eng = payload_action prev fl eng ∧
    payload_action prev' fl eng = payload_action prev fl eng := by
  cases eng with
  | error e => exact ⟨rfl, rfl⟩
  | ok ms => exact ⟨rfl, rfl⟩

/-- C10: zero-width engine matches (`start = end`) are counted like any
other match and produce a tag whose range is the empty half-open interval
`[start, start)`; and since the engine's iteration advances past empty
matches, its starts are strictly increasing, and the produced tags inherit
that strict order.  (The engine output is the parameter; the concrete list
below is what `re.finditer` yields for a pattern like `a*` on `bbb`.) -/
theorem C10_zero_width_matches (prev : List Tag) (fl : Flags) (ms : List Span)
    (hg : fl.g = true)
    (h : List.Pairwise (fun a b : Span => a.startAt < b.startAt) ms) :
    (payload_action prev fl (Except.ok ms)).2 = Except.ok (true, ms.length) ∧
    (∀ (j : Nat) (mt : Span), ms.get? j = some mt →
      ∃ t : Tag, (payload_action prev fl (Except.ok ms)).1.get? j = some t ∧
        t.startAt = mt.startAt ∧ t.endAt = mt.endAt) ∧
    List.Pairwise (fun t u : Tag => t.startAt < u.startAt)
      (payload_action prev fl (Except.ok ms)).1 := by
  obtain ⟨g, fi, fm, fs⟩ := fl
  cases hg
  refine ⟨?_, ?_, ?_⟩
  · show Except.ok (true, (payloadRun false 0 ms).2) = _
    rw [payloadRun_count ms 0, Nat.zero_add]
  · intro j mt hj
    exact payloadRun_get ms j mt hj
  · exact payloadRun_pairwise (fun a b => a.1 < b.1) ms h

/-- Witness for C10 at the engine output of `a*` with global on over a
three-character content with no `a`: four zero-width matches, counted,
each tagged with an empty range, strictly ascending. -/
theorem C10_zero_width_matches_witness :
    List.Pairwise (fun a b : Span => a.startAt < b.startAt)
      [⟨0, 0⟩, ⟨1, 1⟩, ⟨2, 2⟩, ⟨3, 3⟩] ∧
    (payload_action [] ⟨true, false, false, false⟩
        (Except.ok [⟨0, 0⟩, ⟨1, 1⟩, ⟨2, 2⟩, ⟨3, 3⟩])).2 = Except.ok (true, 4) ∧
    (∃ t : Tag, (payload_action [] ⟨true, false, false, false⟩
        (Except.ok [⟨0, 0⟩, ⟨1, 1⟩, ⟨2, 2⟩, ⟨3, 3⟩])).1.get? 2 = some t ∧
        t.startAt = 2 ∧ t.endAt = 2) := by
  have hmain := C10_zero_width_matches [] ⟨true, false, false, false⟩
    [⟨0, 0⟩, ⟨1, 1⟩, ⟨2, 2⟩, ⟨3, 3⟩] rfl (by decide)
  exact ⟨by decide, hmain.1, hmain.2.1 2 ⟨2, 2⟩ (by decide)⟩

/-! ### Claims about the inline markup renderer -/

/-- C7: when a construct matches at a position, the combined single-pass
pattern resolves the choice by the textual order of its alternatives:
List item, Heading, Bold, Italic — the alternative of lowest rank that
matches at that position is the one the scan yields. -/
theorem C7_priority_order (c : List Char) (p : Nat) (k : MKind) (m : MRes)
    (hk : altMatchAt k c p = some m)
    (hprev : ∀ k', rank k' < rank k → altMatchAt k' c p = none) :
    matchAt c p = some m := by
  cases k with
  | list => simp [matchAt, hk]
  | heading =>
    have h0 := hprev MKind.list (by decide)
    simp [matchAt, h0, hk]
  | bold =>
    have h0 := hprev MKind.list (by decide)
    have h1 := hprev MKind.heading (by decide)
    simp [matchAt, h0, h1, hk]
  | italic =>
    have h0 := hprev MKind.list (by decide)
    have h1 := hprev MKind.heading (by decide)
    have h2 := hprev MKind.bold (by decide)
    simp [matchAt, h0, h1, h2, hk]

/-- Witness for C7: on a heading line the list alternative fails at
position 0, so the combined pattern yields the heading match there. -/
theorem C7_priority_order_witness :
    altMatchAt MKind.heading ['#', ' ', 'h', 'i'] 0 = some ⟨0, 4, MKind.heading, ['h', 'i']⟩ ∧
    altMatchAt MKind.list ['#', ' ', 'h', 'i'] 0 = none ∧
    matchAt ['#', ' ', 'h', 'i'] 0 = some ⟨0, 4, MKind.heading, ['h', 'i']⟩ :=
  ⟨by decide, by decide,
   C7_priority_order ['#', ' ', 'h', 'i'] 0 MKind.heading ⟨0, 4, MKind.heading, ['h', 'i']⟩
     (by decide)
     (fun k' hlt => by
       cases k' with
       | list => decide
       | heading => exact absurd hlt (by decide)
       | bold => exact absurd hlt (by decide)
       | italic => exact absurd hlt (by decide))⟩

/-- C1 counterexample: on the content `a**b**` the bold match starts at
offset 1, exactly one character past `lastpos = 0`, so the guard
`lastpos + 1 != start` skips the unformatted insert and the character `a`
is silently dropped: the render output is just the bold segment `b`, and
the concatenation of the emitted texts is `b`, not the claimed `ab`
(content with the `**` delimiters stripped). -/
theorem C1_counterexample :
    populate_re ['a', '*', '*', 'b', '*', '*'] = [⟨['b'], Style.bold⟩] ∧
    (List.map Seg.text (populate_re ['a', '*', '*', 'b', '*', '*'])).join = ['b'] ∧
    (List.map Seg.text (populate_re ['a', '*', '*', 'b', '*', '*'])).join ≠ ['a', 'b'] := by
  decide

/-- C1 amended: `render` is total (it is a Lean function), and an
unconsumed gap strictly between `lastpos` and the next match start is
emitted as one plain segment exactly when the gap is not one single
character: the guard in the source is `lastpos + 1 != start`, so a
one-character gap is silently dropped, and otherwise the non-empty slice
`content[lastpos:start]` is emitted before the match's styled segment. -/
theorem C1_amended_gap_emission (c : List Char) (lastpos : Nat) (m : MRes) (ms : List MRes) :
    populate_re c = renderLoop c 0 (finditer c) ∧
    (lastpos + 1 ≠ m.startPos →
      renderLoop c lastpos (m :: ms)
        = emitPlain (slice c lastpos m.startPos)
            ++ styledSeg m :: renderLoop c m.endPos ms) ∧
    (lastpos + 1 = m.startPos →
      renderLoop c lastpos (m :: ms) = styledSeg m :: renderLoop c m.endPos ms) := by
  refine ⟨rfl, ?_, ?_⟩
  · intro h; simp [renderLoop, h]
  · intro h; simp [renderLoop, h]

/-- Witness for C1 amended: a two-character gap before a bold match is
emitted as a plain segment. -/
theorem C1_amended_gap_emission_witness :
    (0 + 1 ≠ 2) ∧
    renderLoop ['x', 'y', '*', '*', 'b', '*', '*'] 0 [⟨2, 7, MKind.bold, ['b']⟩]
      = emitPlain (slice ['x', 'y', '*', '*', 'b', '*', '*'] 0 2)
          ++ styledSeg ⟨2, 7, MKind.bold, ['b']⟩
            :: renderLoop ['x', 'y', '*', '*', 'b', '*', '*'] 7 [] :=
  ⟨by decide,
   (C1_amended_gap_emission ['x', 'y', '*', '*', 'b', '*', '*'] 0
       ⟨2, 7, MKind.bold, ['b']⟩ []).2.1 (by decide)⟩

/-! ### Inversion lemmas for the combined-pattern scan -/

/-- A successful alternative yields a match of its own kind starting at
the tried position. -/
theorem altMatchAt_kind_startPos (k : MKind) (c : List Char) (p : Nat) (m : MRes)
    (h : altMatchAt k c p = some m) : m.kind = k ∧ m.startPos = p := by
  cases k <;>
    · simp only [altMatchAt, Option.map_eq_some'] at h
      obtain ⟨r, hr, rfl⟩ := h
      exact ⟨rfl, rfl⟩

/-- A successful combined match comes from one of the four alternatives. -/
theorem matchAt_eq_alt (c : List Char) (p : Nat) (m : MRes) (h : matchAt c p = some m) :
    altMatchAt MKind.list c p = some m ∨ altMatchAt MKind.heading c p = some m ∨
    altMatchAt MKind.bold c p = some m ∨ altMatchAt MKind.italic c p = some m := by
  unfold matchAt at h
  split at h
  · rename_i m0 heq
    exact Or.inl (heq.trans h)
  · rename_i heq0
    split at h
    · rename_i m0 heq
      exact Or.inr (Or.inl (heq.trans h))
    · rename_i heq1
      split at h
      · rename_i m0 heq
        exact Or.inr (Or.inr (Or.inl (heq.trans h)))
      · rename_i heq2
        exact Or.inr (Or.inr (Or.inr h))

/-- A successful combined match starts at the tried position. -/
theorem matchAt_startPos (c : List Char) (p : Nat) (m : MRes) (h : matchAt c p = some m) :
    m.startPos = p := by
  rcases matchAt_eq_alt c p m h with h' | h' | h' | h' <;>
    exact (altMatchAt_kind_startPos _ c p m h').2

/-- Every match produced by the scan is a combined-pattern match at its
own start position. -/
theorem mem_scanFrom (c : List Char) :
    ∀ (fuel p : Nat) (m : MRes), m ∈ scanFrom c fuel p → matchAt c m.startPos = some m := by
  intro fuel
  induction fuel with
  | zero => intro p m h; simp [scanFrom] at h
  | succ n ih =>
    intro p m h
    rw [scanFrom] at h
    cases hm : matchAt c p with
    | some m0 =>
      simp only [hm] at h
      rcases List.mem_cons.mp h with rfl | h'
      · rw [matchAt_startPos c p m hm]
        exact hm
      · exact ih _ _ h'
    | none =>
      simp only [hm] at h
      by_cases hp : p < c.length
      · rw [if_pos hp] at h
        exact ih _ _ h
      · rw [if_neg hp] at h
        simp at h

/-- The element right after the maximal `takeWhile` prefix, when present,
falsifies the predicate. -/
theorem get?_takeWhile_boundary (P : Char → Bool) (l : List Char) :
    l.get? (l.takeWhile P).length = none ∨
    ∃ x, l.get? (l.takeWhile P).length = some x ∧ P x = false := by
  induction l with
  | nil => exact Or.inl rfl
  | cons x xs ih =>
    by_cases hx : P x = true
    · rw [List.takeWhile_cons, if_pos hx]
      rcases ih with h | ⟨y, hy, hPy⟩
      · left
        simpa using h
      · right
        exact ⟨y, by simpa using hy, hPy⟩
    · right
      refine ⟨x, ?_, by simpa using hx⟩
      rw [List.takeWhile_cons, if_neg hx]
      rfl

/-- Inversion of one line alternative: the capture is the maximal
non-newline run after the two marker characters, non-empty, and the match
end sits right after it. -/
theorem lineMatchAt_inv (marker : Char) (c : List Char) (p e : Nat) (run : List Char)
    (h : lineMatchAt marker c p = some (e, run)) :
    run = (c.drop (p + 2)).takeWhile (fun x => x != '\n') ∧
    e = p + 2 + run.length ∧ run ≠ [] := by
  unfold lineMatchAt at h
  split at h
  · split at h
    · split at h
      · split at h
        · exact absurd h (by simp)
        · rename_i hlen
          simp only [Option.some.injEq, Prod.mk.injEq] at h
          obtain ⟨he, hrun⟩ := h
          subst hrun
          subst he
          refine ⟨rfl, rfl, ?_⟩
          intro hnil
          exact hlen (by rw [hnil]; rfl)
      · exact absurd h (by simp)
    · exact absurd h (by simp)
  · exact absurd h (by simp)

/-- A line match ends at end-of-content or right before a newline: the
`$` anchor is zero-width, so the line terminator is not consumed. -/
theorem lineMatchAt_terminator (marker : Char) (c : List Char) (p e : Nat) (run : List Char)
    (h : lineMatchAt marker c p = some (e, run)) :
    run = (c.drop (p + 2)).takeWhile (fun x => x != '\n') ∧
    e = p + 2 + run.length ∧ run ≠ [] ∧
    (c.get? e = none ∨ c.get? e = some '\n') := by
  obtain ⟨hrun, he, hne⟩ := lineMatchAt_inv marker c p e run h
  refine ⟨hrun, he, hne, ?_⟩
  subst hrun
  subst he
  rcases get?_takeWhile_boundary (fun x => x != '\n') (c.drop (p + 2)) with hb | ⟨x, hb, hPx⟩
  · left
    rw [← List.get?_drop]
    exact hb
  · right
    have hPx' : (x != '\n') = false := hPx
    have hx : x = '\n' := bne_eq_false_iff_eq.mp hPx'
    rw [← List.get?_drop, hb, hx]

/-- C8 counterexample: on the content `- a` followed by a newline and `x`,
the list-item match is `[0, 3)` — it ends before the newline at offset 3,
so the line terminator is not part of the matched span the cursor advances
past; it is left behind and emitted inside the subsequent plain segment. -/
theorem C8_counterexample :
    finditer ['-', ' ', 'a', '\n', 'x'] = [⟨0, 3, MKind.list, ['a']⟩] ∧
    List.get? ['-', ' ', 'a', '\n', 'x'] 3 = some '\n' ∧
    populate_re ['-', ' ', 'a', '\n', 'x']
      = [⟨'•' :: ' ' :: ['a', '\n'], Style.bullet⟩, ⟨['\n', 'x'], Style.plain⟩] := by
  decide

/-- C8 amended: for every list-item or heading match the scan produces,
the captured text is the rest of the line (the maximal non-newline run
after the marker and its following whitespace character), the match ends
right after that run — before the line terminator, which is either absent
(end of content) or a newline left unconsumed for later emission (it is
skipped only when the next match starts exactly one character after the
match end, by the `lastpos + 1 != start` guard) — and the renderer emits
the capture as one bullet segment with a leading bullet glyph and an
appended newline (resp. one heading segment with an appended newline). -/
theorem C8_line_terminator (c : List Char) (m : MRes) (hm : m ∈ finditer c)
    (hk : m.kind = MKind.list ∨ m.kind = MKind.heading) :
    m.inner = (c.drop (m.startPos + 2)).takeWhile (fun x => x != '\n') ∧
    m.endPos = m.startPos + 2 + m.inner.length ∧
    (c.get? m.endPos = none ∨ c.get? m.endPos = some '\n') ∧
    styledSeg m = (if m.kind = MKind.list
      then ⟨bulletGlyph ++ m.inner ++ ['\n'], Style.bullet⟩
      else ⟨m.inner ++ ['\n'], Style.h1⟩) := by
  have hmat : matchAt c m.startPos = some m := mem_scanFrom c (c.length + 1) 0 m hm
  obtain ⟨ps, pe, kk, inn⟩ := m
  rcases matchAt_eq_alt c _ _ hmat with hA | hA | hA | hA
  · have hkk : kk = MKind.list := (altMatchAt_kind_startPos _ c _ _ hA).1
    subst hkk
    simp only [altMatchAt, Option.map_eq_some'] at hA
    obtain ⟨⟨e0, run0⟩, hr, heq⟩ := hA
    simp only [MRes.mk.injEq] at heq
    obtain ⟨-, hpe, -, hinn⟩ := heq
    subst hpe
    subst hinn
    obtain ⟨h1, h2, -, h4⟩ := lineMatchAt_terminator '-' c ps e0 run0 hr
    exact ⟨h1, h2, h4, by simp [styledSeg]⟩
  · have hkk : kk = MKind.heading := (altMatchAt_kind_startPos _ c _ _ hA).1
    subst hkk
    simp only [altMatchAt, Option.map_eq_some'] at hA
    obtain ⟨⟨e0, run0⟩, hr, heq⟩ := hA
    simp only [MRes.mk.injEq] at heq
    obtain ⟨-, hpe, -, hinn⟩ := heq
    subst hpe
    subst hinn
    obtain ⟨h1, h2, -, h4⟩ := lineMatchAt_terminator '#' c ps e0 run0 hr
    exact ⟨h1, h2, h4, by simp [styledSeg]⟩
  · have hkk : kk = MKind.bold := (altMatchAt_kind_startPos _ c _ _ hA).1
    subst hkk
    rcases hk with h | h <;> simp at h
  · have hkk : kk = MKind.italic := (altMatchAt_kind_startPos _ c _ _ hA).1
    subst hkk
    rcases hk with h | h <;> simp at h

/-- Witness for C8 amended at the concrete content `- a\nx`: the single
list match captures `a`, ends at 3 (before the newline), and becomes the
glyph-prefixed bullet segment. -/
theorem C8_line_terminator_witness :
    (⟨0, 3, MKind.list, ['a']⟩ : MRes) ∈ finditer ['-', ' ', 'a', '\n', 'x'] ∧
    ((⟨0, 3, MKind.list, ['a']⟩ : MRes).inner
        = ((['-', ' ', 'a', '\n', 'x'] : List Char).drop
            ((⟨0, 3, MKind.list, ['a']⟩ : MRes).startPos + 2)).takeWhile (fun x => x != '\n') ∧
      (⟨0, 3, MKind.list, ['a']⟩ : MRes).endPos
        = (⟨0, 3, MKind.list, ['a']⟩ : MRes).startPos + 2
            + (⟨0, 3, MKind.list, ['a']⟩ : MRes).inner.length ∧
      ((['-', ' ', 'a', '\n', 'x'] : List Char).get? (⟨0, 3, MKind.list, ['a']⟩ : MRes).endPos = none ∨
        (['-', ' ', 'a', '\n', 'x'] : List Char).get? (⟨0, 3, MKind.list, ['a']⟩ : MRes).endPos
          = some '\n') ∧
      styledSeg ⟨0, 3, MKind.list, ['a']⟩
        = (if (⟨0, 3, MKind.list, ['a']⟩ : MRes).kind = MKind.list
            then ⟨bulletGlyph ++ (⟨0, 3, MKind.list, ['a']⟩ : MRes).inner ++ ['\n'], Style.bullet⟩
            else ⟨(⟨0, 3, MKind.list, ['a']⟩ : MRes).inner ++ ['\n'], Style.h1⟩)) :=
  ⟨by decide,
   C8_line_terminator ['-', ' ', 'a', '\n', 'x'] ⟨0, 3, MKind.list, ['a']⟩
     (by decide) (Or.inl rfl)⟩

end RegexTool
